import Mathlib

/-!
# CarbonCredits ledger — shallow embedding

Shallow embedding of the Solidity contract `CarbonCredits`
(src/blockchain/hardhat/test/CarbonCredits.test.js, embedded contract source:
`contract CarbonCredits is ERC20, Ownable, Pausable, ReentrancyGuard`).

Modelling conventions:
* Addresses are `Nat`; `0` stands for `address(0)`.
* `block.timestamp` is passed explicitly as a `now : Nat` argument.
* ERC20 balances are an association list (finitely many accounts hold
  tokens); `getBal`/`setBal` mirror mapping read/write, with the default 0.
* `creditMetadata` is a total function `Nat → CarbonCreditMetadata`
  mirroring the Solidity `mapping(uint256 => CarbonCreditMetadata)`,
  whose unwritten slots hold the zero-initialised struct.
* Every external function is a pure function
  `... → CarbonState → Except ErrKind CarbonState`; a Solidity `revert`
  (failed `require`, modifier, or inherited check) is `Except.error`, which
  carries no state — exactly the all-or-nothing revert semantics.
  `require` checks are translated in the source's evaluation order
  (modifiers run in declaration order, before the body).
* Solidity 0.8 `uint256` arithmetic reverts on overflow rather than
  wrapping; the model uses unbounded `Nat`, which agrees with the source
  on all executions whose counters stay below 2^256.  None of the
  properties below depend on behaviour at the 2^256 boundary.
* `approve`/`transferFrom`/allowances are not needed by any property
  studied here and are omitted from the state.
-/

/-- One slot of the `creditMetadata` mapping (Solidity struct
`CarbonCreditMetadata`).  A freshly-read, never-written slot holds
`CarbonCreditMetadata.default` (all fields zero/empty), as Solidity
mappings do. -/
structure CarbonCreditMetadata where
  projectId : String
  verificationId : String
  verificationDate : Nat
  methodology : String
  location : String
  vintageYear : Nat
  isRetired : Bool
  retirementReason : String
  retirementDate : Nat
deriving DecidableEq, Repr

/-- The zero-initialised struct a Solidity mapping returns for an
unwritten key. -/
def CarbonCreditMetadata.default : CarbonCreditMetadata :=
  { projectId := ""
    verificationId := ""
    verificationDate := 0
    methodology := ""
    location := ""
    vintageYear := 0
    isRetired := false
    retirementReason := ""
    retirementDate := 0 }

/-- Read of the ERC20 `_balances` mapping: first binding wins, default 0. -/
def getBal : List (Nat × Nat) → Nat → Nat
  | [], _ => 0
  | (k, v) :: t, a => if k = a then v else getBal t a

/-- Write of the ERC20 `_balances` mapping: replace the first binding of
the key, or append a fresh one. -/
def setBal : List (Nat × Nat) → Nat → Nat → List (Nat × Nat)
  | [], a, v => [(a, v)]
  | (k, w) :: t, a, v =>
      if k = a then (a, v) :: t else (k, w) :: setBal t a v

/-- Sum of all account balances. -/
def sumBal (l : List (Nat × Nat)) : Nat := (l.map Prod.snd).sum

/-- Contract storage: `owner` (Ownable), `paused` (Pausable),
`verifiers`, ERC20 `_balances`, `creditMetadata`, `totalMinted`,
`totalRetired`. -/
structure CarbonState where
  owner : Nat
  paused : Bool
  verifiers : Nat → Bool
  balances : List (Nat × Nat)
  creditMetadata : Nat → CarbonCreditMetadata
  totalMinted : Nat
  totalRetired : Nat

/-- Error kinds, one per distinct revert site of the contract. -/
inductive ErrKind where
  /-- `Pausable: paused` (`whenNotPaused`). -/
  | Halted
  /-- `Only verifier or owner` (`onlyVerifier`). -/
  | Unauthorized
  /-- `Invalid recipient address` (mint, recipient is `address(0)`). -/
  | InvalidRecipient
  /-- `Amount must be greater than 0`. -/
  | NonPositiveAmount
  /-- `Project ID cannot be empty`. -/
  | EmptyProjectId
  /-- `Verification ID cannot be empty`. -/
  | EmptyVerificationId
  /-- `Insufficient balance` / ERC20 balance checks. -/
  | InsufficientBalance
  /-- `Retirement reason cannot be empty`. -/
  | EmptyReason
  /-- `Ownable: caller is not the owner` (`onlyOwner`). -/
  | NotOwner
  /-- `Already a verifier`. -/
  | AlreadyVerifier
  /-- `Not a verifier`. -/
  | NotVerifier
  /-- `Invalid verifier address` (addVerifier, zero address). -/
  | InvalidVerifierAddress
  /-- `Token ID does not exist` (getCarbonCreditMetadata). -/
  | NotFound
  /-- `Pausable: not paused` (`_unpause` while active). -/
  | NotPaused
  /-- `ERC20: transfer from the zero address` / `burn from the zero
  address`. -/
  | ZeroAddress
deriving DecidableEq, Repr

/-- Constructor: `Ownable` fixes the owner as the deployer, Pausable
starts unpaused, and the body runs `_mint(msg.sender, 0)` (a balance
write of 0 for the deployer). -/
def initialState (deployer : Nat) : CarbonState :=
  { owner := deployer
    paused := false
    verifiers := fun _ => false
    balances := setBal [] deployer 0
    creditMetadata := fun _ => CarbonCreditMetadata.default
    totalMinted := 0
    totalRetired := 0 }

/-- Function `mintCarbonCredits`.  Modifier order in the source is
`onlyVerifier`, `nonReentrant`, `whenNotPaused` — so the authorization
check runs before the pause check.  The body then checks recipient,
amount and the two identifier strings, stores the new metadata record at
index `totalMinted` (its pre-increment value), mints `amount` units for
the recipient `toAcct`, and adds `amount` onto `totalMinted`. -/
def mintCarbonCredits (caller toAcct amount : Nat)
    (projectId verificationId methodology location : String)
    (vintageYear now : Nat) (s : CarbonState) :
    Except ErrKind CarbonState :=
  if ¬ (s.verifiers caller = true ∨ caller = s.owner) then
    .error .Unauthorized
  else if s.paused then .error .Halted
  else if toAcct = 0 then .error .InvalidRecipient
  else if amount = 0 then .error .NonPositiveAmount
  else if projectId.length = 0 then .error .EmptyProjectId
  else if verificationId.length = 0 then .error .EmptyVerificationId
  else
    .ok { s with
      creditMetadata := fun i =>
        if i = s.totalMinted then
          { projectId := projectId
            verificationId := verificationId
            verificationDate := now
            methodology := methodology
            location := location
            vintageYear := vintageYear
            isRetired := false
            retirementReason := ""
            retirementDate := 0 }
        else s.creditMetadata i
      balances := setBal s.balances toAcct (getBal s.balances toAcct + amount)
      totalMinted := s.totalMinted + amount }

/-- Index marked by the retirement loop
`for (i = 0; i < totalMinted; i++) if (!creditMetadata[i].isRetired) …
break;` — the least `i < n` whose slot is unretired, if any. -/
def findUnretired (md : Nat → CarbonCreditMetadata) (n : Nat) :
    Option Nat :=
  (List.range n).find? (fun i => !(md i).isRetired)

/-- Effect of the retirement loop on the metadata mapping: mark the
first unretired slot below `n`, stamping `reason` and `now`; if every
slot below `n` is already retired the loop falls through unchanged. -/
def markRetired (md : Nat → CarbonCreditMetadata) (n : Nat)
    (reason : String) (now : Nat) : Nat → CarbonCreditMetadata :=
  match findUnretired md n with
  | none => md
  | some j => fun i =>
      if i = j then
        { md j with
          isRetired := true
          retirementReason := reason
          retirementDate := now }
      else md i

/-- Function `retireCarbonCredits`.  Modifiers `nonReentrant, whenNotPaused`,
then the three `require`s, the retirement loop over
`[0, totalMinted)`, `_burn(msg.sender, amount)` (whose zero-address
check would revert the whole call, discarding the loop's writes), and
`totalRetired += amount`. -/
def retireCarbonCredits (caller amount : Nat) (reason : String)
    (now : Nat) (s : CarbonState) : Except ErrKind CarbonState :=
  if s.paused then .error .Halted
  else if amount = 0 then .error .NonPositiveAmount
  else if getBal s.balances caller < amount then
    .error .InsufficientBalance
  else if reason.length = 0 then .error .EmptyReason
  else if caller = 0 then .error .ZeroAddress
  else
    .ok { s with
      creditMetadata := markRetired s.creditMetadata s.totalMinted
        reason now
      balances := setBal s.balances caller
        (getBal s.balances caller - amount)
      totalRetired := s.totalRetired + amount }

/-- ERC20 `transfer` overridden with `whenNotPaused`; `_transfer`
checks nonzero endpoints then sufficient balance, debits the sender and
credits the recipient (reading the recipient's balance after the
debit). -/
def transfer (caller toAcct amount : Nat) (s : CarbonState) :
    Except ErrKind CarbonState :=
  if s.paused then .error .Halted
  else if caller = 0 then .error .ZeroAddress
  else if toAcct = 0 then .error .ZeroAddress
  else if getBal s.balances caller < amount then
    .error .InsufficientBalance
  else
    let debited := setBal s.balances caller
      (getBal s.balances caller - amount)
    .ok { s with
      balances := setBal debited toAcct (getBal debited toAcct + amount) }

/-- Function `addVerifier`: `onlyOwner`, then nonzero address, then rejects an
address already in the role. -/
def addVerifier (caller who : Nat) (s : CarbonState) :
    Except ErrKind CarbonState :=
  if ¬ caller = s.owner then .error .NotOwner
  else if who = 0 then .error .InvalidVerifierAddress
  else if s.verifiers who then .error .AlreadyVerifier
  else
    .ok { s with verifiers := fun a => if a = who then true
      else s.verifiers a }

/-- Function `removeVerifier`: `onlyOwner`, then rejects an address not in the
role. -/
def removeVerifier (caller who : Nat) (s : CarbonState) :
    Except ErrKind CarbonState :=
  if ¬ caller = s.owner then .error .NotOwner
  else if ¬ s.verifiers who then .error .NotVerifier
  else
    .ok { s with verifiers := fun a => if a = who then false
      else s.verifiers a }

/-- Function `pause`: `onlyOwner`, and `_pause` carries `whenNotPaused`. -/
def pause (caller : Nat) (s : CarbonState) :
    Except ErrKind CarbonState :=
  if ¬ caller = s.owner then .error .NotOwner
  else if s.paused then .error .Halted
  else .ok { s with paused := true }

/-- Function `unpause`: `onlyOwner`, and `_unpause` carries `whenPaused`. -/
def unpause (caller : Nat) (s : CarbonState) :
    Except ErrKind CarbonState :=
  if ¬ caller = s.owner then .error .NotOwner
  else if ¬ s.paused then .error .NotPaused
  else .ok { s with paused := false }

/-- Function `getCarbonCreditMetadata`: `require(tokenId < totalMinted)`, then
return the mapping slot. -/
def getCarbonCreditMetadata (tokenId : Nat) (s : CarbonState) :
    Except ErrKind CarbonCreditMetadata :=
  if tokenId < s.totalMinted then .ok (s.creditMetadata tokenId)
  else .error .NotFound

/-- View function `balanceOf`. -/
def balanceOf (a : Nat) (s : CarbonState) : Nat := getBal s.balances a

/-- One external mutating call, with its caller and (for the
time-reading operations) the block timestamp. -/
inductive Op where
  | mint (caller toAcct amount : Nat)
      (projectId verificationId methodology location : String)
      (vintageYear now : Nat)
  | retire (caller amount : Nat) (reason : String) (now : Nat)
  | transfer (caller toAcct amount : Nat)
  | addVerifier (caller who : Nat)
  | removeVerifier (caller who : Nat)
  | pause (caller : Nat)
  | unpause (caller : Nat)

/-- Dispatch one call against the state. -/
def applyOp (o : Op) (s : CarbonState) : Except ErrKind CarbonState :=
  match o with
  | .mint caller toAcct amount pid vid meth loc vy now =>
      mintCarbonCredits caller toAcct amount pid vid meth loc vy now s
  | .retire caller amount reason now =>
      retireCarbonCredits caller amount reason now s
  | .transfer caller toAcct amount => transfer caller toAcct amount s
  | .addVerifier caller who => addVerifier caller who s
  | .removeVerifier caller who => removeVerifier caller who s
  | .pause caller => pause caller s
  | .unpause caller => unpause caller s

/-- Run one call; a reverted call leaves the state exactly as it was. -/
def execOp (o : Op) (s : CarbonState) : CarbonState :=
  match applyOp o s with
  | .ok s' => s'
  | .error _ => s

/-- State after a sequence of calls against a fresh deployment. -/
def run (deployer : Nat) (ops : List Op) : CarbonState :=
  ops.foldl (fun s o => execOp o s) (initialState deployer)

/-! ## Basic lemmas about the balance map and the step function -/

theorem sumBal_setBal (l : List (Nat × Nat)) (a v : Nat) :
    sumBal (setBal l a v) + getBal l a = sumBal l + v := by
  induction l with
  | nil => simp [sumBal, setBal, getBal]
  | cons h t ih =>
    obtain ⟨k, w⟩ := h
    by_cases hk : k = a
    · subst hk
      simp [sumBal, setBal, getBal]
      omega
    · simp only [sumBal, setBal, getBal, if_neg hk, List.map_cons,
        List.sum_cons] at *
      omega

theorem mem_keys_setBal {l : List (Nat × Nat)} {a v x : Nat}
    (h : x ∈ (setBal l a v).map Prod.fst) :
    x ∈ l.map Prod.fst ∨ x = a := by
  induction l with
  | nil => simp [setBal] at h; simp [h]
  | cons hd t ih =>
    obtain ⟨k, w⟩ := hd
    by_cases hk : k = a
    · subst hk
      simp [setBal] at h
      rcases h with h | h
      · right; exact h
      · left; simp [h]
    · simp only [setBal, if_neg hk, List.map_cons, List.mem_cons] at h
      rcases h with h | h
      · left; simp [h]
      · rcases ih h with h' | h'
        · left; simp [h']
        · right; exact h'

theorem keys_nodup_setBal {l : List (Nat × Nat)} {a v : Nat}
    (h : (l.map Prod.fst).Nodup) :
    ((setBal l a v).map Prod.fst).Nodup := by
  induction l with
  | nil => simp [setBal]
  | cons hd t ih =>
    obtain ⟨k, w⟩ := hd
    simp only [List.map_cons, List.nodup_cons] at h
    by_cases hk : k = a
    · subst hk
      simpa [setBal] using h
    · simp only [setBal, if_neg hk, List.map_cons, List.nodup_cons]
      refine ⟨fun hm => ?_, ih h.2⟩
      rcases mem_keys_setBal hm with h' | h'
      · exact h.1 h'
      · exact hk h'

theorem execOp_of_error {o : Op} {s : CarbonState} {e : ErrKind}
    (h : applyOp o s = .error e) : execOp o s = s := by
  simp [execOp, h]

theorem execOp_of_ok {o : Op} {s s' : CarbonState}
    (h : applyOp o s = .ok s') : execOp o s = s' := by
  simp [execOp, h]

/-! ## Success/failure characterizations of each operation -/

/-- The state produced by a successful `mintCarbonCredits`. -/
def mintResult (caller toAcct amount : Nat)
    (projectId verificationId methodology location : String)
    (vintageYear now : Nat) (s : CarbonState) : CarbonState :=
  { s with
    creditMetadata := fun i =>
      if i = s.totalMinted then
        { projectId := projectId
          verificationId := verificationId
          verificationDate := now
          methodology := methodology
          location := location
          vintageYear := vintageYear
          isRetired := false
          retirementReason := ""
          retirementDate := 0 }
      else s.creditMetadata i
    balances := setBal s.balances toAcct (getBal s.balances toAcct + amount)
    totalMinted := s.totalMinted + amount }

theorem mintCarbonCredits_ok_iff {caller toAcct amount : Nat}
    {pid vid meth loc : String} {vy now : Nat} {s s' : CarbonState} :
    mintCarbonCredits caller toAcct amount pid vid meth loc vy now s
        = .ok s' ↔
      ((s.verifiers caller = true ∨ caller = s.owner) ∧ s.paused = false ∧
        toAcct ≠ 0 ∧ amount ≠ 0 ∧ pid.length ≠ 0 ∧ vid.length ≠ 0 ∧
        s' = mintResult caller toAcct amount pid vid meth loc vy now s) := by
  unfold mintCarbonCredits mintResult
  split_ifs with h1 h2 h3 h4 h5 h6 <;> simp_all <;> tauto

/-- The state produced by a successful `retireCarbonCredits`. -/
def retireResult (caller amount : Nat) (reason : String) (now : Nat)
    (s : CarbonState) : CarbonState :=
  { s with
    creditMetadata := markRetired s.creditMetadata s.totalMinted reason now
    balances := setBal s.balances caller
      (getBal s.balances caller - amount)
    totalRetired := s.totalRetired + amount }

theorem retireCarbonCredits_ok_iff {caller amount : Nat}
    {reason : String} {now : Nat} {s s' : CarbonState} :
    retireCarbonCredits caller amount reason now s = .ok s' ↔
      (s.paused = false ∧ amount ≠ 0 ∧
        ¬ getBal s.balances caller < amount ∧ reason.length ≠ 0 ∧
        caller ≠ 0 ∧ s' = retireResult caller amount reason now s) := by
  unfold retireCarbonCredits retireResult
  split_ifs with h1 h2 h3 h4 h5 <;> simp_all <;> tauto

/-- The state produced by a successful `transfer`. -/
def transferResult (caller toAcct amount : Nat) (s : CarbonState) :
    CarbonState :=
  let debited := setBal s.balances caller
    (getBal s.balances caller - amount)
  { s with balances := setBal debited toAcct (getBal debited toAcct + amount) }

theorem transfer_ok_iff {caller toAcct amount : Nat} {s s' : CarbonState} :
    transfer caller toAcct amount s = .ok s' ↔
      (s.paused = false ∧ caller ≠ 0 ∧ toAcct ≠ 0 ∧
        ¬ getBal s.balances caller < amount ∧
        s' = transferResult caller toAcct amount s) := by
  unfold transfer transferResult
  split_ifs with h1 h2 h3 h4 <;> simp_all <;> tauto

theorem addVerifier_ok_iff {caller who : Nat} {s s' : CarbonState} :
    addVerifier caller who s = .ok s' ↔
      (caller = s.owner ∧ who ≠ 0 ∧ s.verifiers who = false ∧
        s' = { s with verifiers := fun a => if a = who then true
          else s.verifiers a }) := by
  unfold addVerifier
  split_ifs with h1 h2 h3 <;> simp_all <;> tauto

theorem removeVerifier_ok_iff {caller who : Nat} {s s' : CarbonState} :
    removeVerifier caller who s = .ok s' ↔
      (caller = s.owner ∧ s.verifiers who = true ∧
        s' = { s with verifiers := fun a => if a = who then false
          else s.verifiers a }) := by
  unfold removeVerifier
  split_ifs with h1 h2 <;> simp_all <;> tauto

theorem pause_ok_iff {caller : Nat} {s s' : CarbonState} :
    pause caller s = .ok s' ↔
      (caller = s.owner ∧ s.paused = false ∧
        s' = { s with paused := true }) := by
  unfold pause
  split_ifs with h1 h2 <;> simp_all <;> tauto

theorem unpause_ok_iff {caller : Nat} {s s' : CarbonState} :
    unpause caller s = .ok s' ↔
      (caller = s.owner ∧ s.paused = true ∧
        s' = { s with paused := false }) := by
  unfold unpause
  split_ifs with h1 h2 <;> simp_all <;> tauto

/-! ## Conservation invariant -/

/-- Ledger invariant: the balance map has no duplicate account keys, and
the sum of all balances plus `totalRetired` equals `totalMinted`. -/
def ledgerInv (s : CarbonState) : Prop :=
  (s.balances.map Prod.fst).Nodup ∧
    sumBal s.balances + s.totalRetired = s.totalMinted

theorem ledgerInv_initial (d : Nat) : ledgerInv (initialState d) := by
  constructor <;> simp [initialState, setBal, sumBal]

theorem ledgerInv_execOp (o : Op) (s : CarbonState) (h : ledgerInv s) :
    ledgerInv (execOp o s) := by
  cases ho : applyOp o s with
  | error e => rw [execOp_of_error ho]; exact h
  | ok s' =>
    rw [execOp_of_ok ho]
    cases o with
    | mint c t a pid vid meth loc vy now =>
      rw [applyOp] at ho
      rcases mintCarbonCredits_ok_iff.mp ho with ⟨_, _, _, _, _, _, rfl⟩
      have hs := sumBal_setBal s.balances t (getBal s.balances t + a)
      refine ⟨keys_nodup_setBal h.1, ?_⟩
      simp only [mintResult]
      have h2 := h.2
      omega
    | retire c a reason now =>
      rw [applyOp] at ho
      rcases retireCarbonCredits_ok_iff.mp ho with ⟨_, _, hbal, _, _, rfl⟩
      have hs := sumBal_setBal s.balances c (getBal s.balances c - a)
      refine ⟨keys_nodup_setBal h.1, ?_⟩
      simp only [retireResult]
      have h2 := h.2
      omega
    | transfer c t a =>
      rw [applyOp] at ho
      rcases transfer_ok_iff.mp ho with ⟨_, _, _, hbal, rfl⟩
      have h1 := sumBal_setBal s.balances c (getBal s.balances c - a)
      have h2 := sumBal_setBal
        (setBal s.balances c (getBal s.balances c - a)) t
        (getBal (setBal s.balances c (getBal s.balances c - a)) t + a)
      refine ⟨keys_nodup_setBal (keys_nodup_setBal h.1), ?_⟩
      simp only [transferResult]
      have h3 := h.2
      omega
    | addVerifier c w =>
      rw [applyOp] at ho
      rcases addVerifier_ok_iff.mp ho with ⟨_, _, _, rfl⟩
      exact h
    | removeVerifier c w =>
      rw [applyOp] at ho
      rcases removeVerifier_ok_iff.mp ho with ⟨_, _, rfl⟩
      exact h
    | pause c =>
      rw [applyOp] at ho
      rcases pause_ok_iff.mp ho with ⟨_, _, rfl⟩
      exact h
    | unpause c =>
      rw [applyOp] at ho
      rcases unpause_ok_iff.mp ho with ⟨_, _, rfl⟩
      exact h

theorem ledgerInv_foldl (ops : List Op) (s : CarbonState)
    (h : ledgerInv s) :
    ledgerInv (ops.foldl (fun s o => execOp o s) s) := by
  induction ops generalizing s with
  | nil => exact h
  | cons o t ih => exact ih (execOp o s) (ledgerInv_execOp o s h)

theorem ledgerInv_run (d : Nat) (ops : List Op) :
    ledgerInv (run d ops) :=
  ledgerInv_foldl ops (initialState d) (ledgerInv_initial d)

/-- C1.  Conservation: starting from a fresh deployment, after any
sequence of calls (each applied atomically; a reverted call leaves the
state unchanged, so every state reached after a successful call is
`run d ops` for the corresponding prefix `ops`), the balance map has
pairwise-distinct account keys and the sum of all account balances
equals `totalMinted - totalRetired`. -/
theorem conservation_sum_balances (d : Nat) (ops : List Op) :
    ((run d ops).balances.map Prod.fst).Nodup ∧
    (sumBal (run d ops).balances : ℤ) =
      ((run d ops).totalMinted : ℤ) - ((run d ops).totalRetired : ℤ) := by
  obtain ⟨h1, h2⟩ := ledgerInv_run d ops
  refine ⟨h1, ?_⟩
  omega

/-! ## The retirement scan -/

theorem findUnretired_lt {md : Nat → CarbonCreditMetadata} {n j : Nat}
    (h : findUnretired md n = some j) : j < n :=
  List.mem_range.mp (List.mem_of_find?_eq_some h)

theorem findUnretired_flag {md : Nat → CarbonCreditMetadata} {n j : Nat}
    (h : findUnretired md n = some j) : (md j).isRetired = false := by
  have := List.find?_some h
  simpa using this

theorem findUnretired_min {md : Nat → CarbonCreditMetadata} {n j : Nat}
    (h : findUnretired md n = some j) :
    ∀ i, i < j → (md i).isRetired = true := by
  induction n with
  | zero => simp [findUnretired] at h
  | succ n ih =>
    rw [findUnretired, List.range_succ, List.find?_append] at h
    cases hc : (List.range n).find? (fun i => !(md i).isRetired) with
    | some j' =>
      rw [hc] at h
      simp only [Option.or_some] at h
      cases h
      exact ih hc
    | none =>
      rw [hc] at h
      simp only [Option.none_or] at h
      have hall := List.find?_eq_none.mp hc
      have hj : j = n := by
        have hm := List.mem_of_find?_eq_some h
        simpa using hm
      subst hj
      intro i hi
      have := hall i (List.mem_range.mpr hi)
      simpa using this

theorem findUnretired_isSome {md : Nat → CarbonCreditMetadata}
    {n i : Nat} (hi : i < n) (hflag : (md i).isRetired = false) :
    ∃ j, findUnretired md n = some j := by
  have : ((List.range n).find? (fun i => !(md i).isRetired)).isSome := by
    rw [List.find?_isSome]
    exact ⟨i, List.mem_range.mpr hi, by simp [hflag]⟩
  rcases Option.isSome_iff_exists.mp this with ⟨j, hj⟩
  exact ⟨j, hj⟩

/-! ## Monotonicity -/

theorem execOp_totalMinted_le (o : Op) (s : CarbonState) :
    s.totalMinted ≤ (execOp o s).totalMinted := by
  cases ho : applyOp o s with
  | error e => rw [execOp_of_error ho]
  | ok s' =>
    rw [execOp_of_ok ho]
    cases o with
    | mint c t a pid vid meth loc vy now =>
      rw [applyOp] at ho
      rcases mintCarbonCredits_ok_iff.mp ho with ⟨_, _, _, _, _, _, rfl⟩
      simp [mintResult]
    | retire c a reason now =>
      rw [applyOp] at ho
      rcases retireCarbonCredits_ok_iff.mp ho with ⟨_, _, _, _, _, rfl⟩
      simp [retireResult]
    | transfer c t a =>
      rw [applyOp] at ho
      rcases transfer_ok_iff.mp ho with ⟨_, _, _, _, rfl⟩
      simp [transferResult]
    | addVerifier c w =>
      rw [applyOp] at ho
      rcases addVerifier_ok_iff.mp ho with ⟨_, _, _, rfl⟩
      exact le_refl _
    | removeVerifier c w =>
      rw [applyOp] at ho
      rcases removeVerifier_ok_iff.mp ho with ⟨_, _, rfl⟩
      exact le_refl _
    | pause c =>
      rw [applyOp] at ho
      rcases pause_ok_iff.mp ho with ⟨_, _, rfl⟩
      exact le_refl _
    | unpause c =>
      rw [applyOp] at ho
      rcases unpause_ok_iff.mp ho with ⟨_, _, rfl⟩
      exact le_refl _

theorem execOp_totalRetired_le (o : Op) (s : CarbonState) :
    s.totalRetired ≤ (execOp o s).totalRetired := by
  cases ho : applyOp o s with
  | error e => rw [execOp_of_error ho]
  | ok s' =>
    rw [execOp_of_ok ho]
    cases o with
    | mint c t a pid vid meth loc vy now =>
      rw [applyOp] at ho
      rcases mintCarbonCredits_ok_iff.mp ho with ⟨_, _, _, _, _, _, rfl⟩
      simp [mintResult]
    | retire c a reason now =>
      rw [applyOp] at ho
      rcases retireCarbonCredits_ok_iff.mp ho with ⟨_, _, _, _, _, rfl⟩
      simp [retireResult]
    | transfer c t a =>
      rw [applyOp] at ho
      rcases transfer_ok_iff.mp ho with ⟨_, _, _, _, rfl⟩
      simp [transferResult]
    | addVerifier c w =>
      rw [applyOp] at ho
      rcases addVerifier_ok_iff.mp ho with ⟨_, _, _, rfl⟩
      exact le_refl _
    | removeVerifier c w =>
      rw [applyOp] at ho
      rcases removeVerifier_ok_iff.mp ho with ⟨_, _, rfl⟩
      exact le_refl _
    | pause c =>
      rw [applyOp] at ho
      rcases pause_ok_iff.mp ho with ⟨_, _, rfl⟩
      exact le_refl _
    | unpause c =>
      rw [applyOp] at ho
      rcases unpause_ok_iff.mp ho with ⟨_, _, rfl⟩
      exact le_refl _

theorem foldl_totalMinted_le (ops : List Op) (s : CarbonState) :
    s.totalMinted ≤
      (ops.foldl (fun s o => execOp o s) s).totalMinted := by
  induction ops generalizing s with
  | nil => exact le_refl _
  | cons o t ih =>
    exact le_trans (execOp_totalMinted_le o s) (ih (execOp o s))

theorem foldl_totalRetired_le (ops : List Op) (s : CarbonState) :
    s.totalRetired ≤
      (ops.foldl (fun s o => execOp o s) s).totalRetired := by
  induction ops generalizing s with
  | nil => exact le_refl _
  | cons o t ih =>
    exact le_trans (execOp_totalRetired_le o s) (ih (execOp o s))

theorem markRetired_of_found {md : Nat → CarbonCreditMetadata}
    {n j : Nat} (reason : String) (now : Nat)
    (hf : findUnretired md n = some j) :
    markRetired md n reason now = fun i =>
      if i = j then
        { md j with
          isRetired := true
          retirementReason := reason
          retirementDate := now }
      else md i := by
  unfold markRetired
  rw [hf]

theorem markRetired_of_none {md : Nat → CarbonCreditMetadata}
    {n : Nat} (reason : String) (now : Nat)
    (hf : findUnretired md n = none) :
    markRetired md n reason now = md := by
  unfold markRetired
  rw [hf]

/-- Every slot marked retired lies strictly below `totalMinted` — the
state invariant that makes retired flags stable under later mints. -/
def retiredBelow (s : CarbonState) : Prop :=
  ∀ i, (s.creditMetadata i).isRetired = true → i < s.totalMinted

theorem retiredBelow_initial (d : Nat) : retiredBelow (initialState d) := by
  intro i hi
  simp [initialState, CarbonCreditMetadata.default] at hi

theorem retiredBelow_execOp (o : Op) (s : CarbonState)
    (h : retiredBelow s) : retiredBelow (execOp o s) := by
  cases ho : applyOp o s with
  | error e => rw [execOp_of_error ho]; exact h
  | ok s' =>
    rw [execOp_of_ok ho]
    cases o with
    | mint c t a pid vid meth loc vy now =>
      rw [applyOp] at ho
      rcases mintCarbonCredits_ok_iff.mp ho with ⟨_, _, _, _, _, _, rfl⟩
      intro i hi
      simp only [mintResult] at hi ⊢
      by_cases hit : i = s.totalMinted
      · simp [hit] at hi
      · rw [if_neg hit] at hi
        exact lt_of_lt_of_le (h i hi) (Nat.le_add_right _ _)
    | retire c a reason now =>
      rw [applyOp] at ho
      rcases retireCarbonCredits_ok_iff.mp ho with ⟨_, _, _, _, _, rfl⟩
      intro i hi
      simp only [retireResult] at hi ⊢
      cases hf : findUnretired s.creditMetadata s.totalMinted with
      | none => rw [markRetired_of_none reason now hf] at hi; exact h i hi
      | some j =>
        rw [markRetired_of_found reason now hf] at hi
        by_cases hij : i = j
        · subst hij; exact findUnretired_lt hf
        · simp only [if_neg hij] at hi; exact h i hi
    | transfer c t a =>
      rw [applyOp] at ho
      rcases transfer_ok_iff.mp ho with ⟨_, _, _, _, rfl⟩
      exact h
    | addVerifier c w =>
      rw [applyOp] at ho
      rcases addVerifier_ok_iff.mp ho with ⟨_, _, _, rfl⟩
      exact h
    | removeVerifier c w =>
      rw [applyOp] at ho
      rcases removeVerifier_ok_iff.mp ho with ⟨_, _, rfl⟩
      exact h
    | pause c =>
      rw [applyOp] at ho
      rcases pause_ok_iff.mp ho with ⟨_, _, rfl⟩
      exact h
    | unpause c =>
      rw [applyOp] at ho
      rcases unpause_ok_iff.mp ho with ⟨_, _, rfl⟩
      exact h

theorem execOp_isRetired_mono (o : Op) (s : CarbonState) (i : Nat)
    (hrb : retiredBelow s) (h : (s.creditMetadata i).isRetired = true) :
    ((execOp o s).creditMetadata i).isRetired = true := by
  cases ho : applyOp o s with
  | error e => rw [execOp_of_error ho]; exact h
  | ok s' =>
    rw [execOp_of_ok ho]
    cases o with
    | mint c t a pid vid meth loc vy now =>
      rw [applyOp] at ho
      rcases mintCarbonCredits_ok_iff.mp ho with ⟨_, _, _, _, _, _, rfl⟩
      have hlt : i < s.totalMinted := hrb i h
      simp only [mintResult]
      rw [if_neg (Nat.ne_of_lt hlt)]
      exact h
    | retire c a reason now =>
      rw [applyOp] at ho
      rcases retireCarbonCredits_ok_iff.mp ho with ⟨_, _, _, _, _, rfl⟩
      simp only [retireResult]
      cases hf : findUnretired s.creditMetadata s.totalMinted with
      | none => rw [markRetired_of_none reason now hf]; exact h
      | some j =>
        rw [markRetired_of_found reason now hf]
        by_cases hij : i = j
        · subst hij; simp
        · simp only [if_neg hij]; exact h
    | transfer c t a =>
      rw [applyOp] at ho
      rcases transfer_ok_iff.mp ho with ⟨_, _, _, _, rfl⟩
      exact h
    | addVerifier c w =>
      rw [applyOp] at ho
      rcases addVerifier_ok_iff.mp ho with ⟨_, _, _, rfl⟩
      exact h
    | removeVerifier c w =>
      rw [applyOp] at ho
      rcases removeVerifier_ok_iff.mp ho with ⟨_, _, rfl⟩
      exact h
    | pause c =>
      rw [applyOp] at ho
      rcases pause_ok_iff.mp ho with ⟨_, _, rfl⟩
      exact h
    | unpause c =>
      rw [applyOp] at ho
      rcases unpause_ok_iff.mp ho with ⟨_, _, rfl⟩
      exact h

theorem foldl_isRetired_mono (ops : List Op) (s : CarbonState) (i : Nat)
    (hrb : retiredBelow s) (h : (s.creditMetadata i).isRetired = true) :
    (((ops.foldl (fun s o => execOp o s) s)).creditMetadata i).isRetired
      = true := by
  induction ops generalizing s with
  | nil => exact h
  | cons o t ih =>
    exact ih (execOp o s) (retiredBelow_execOp o s hrb)
      (execOp_isRetired_mono o s i hrb h)

theorem retiredBelow_foldl (ops : List Op) (s : CarbonState)
    (h : retiredBelow s) :
    retiredBelow (ops.foldl (fun s o => execOp o s) s) := by
  induction ops generalizing s with
  | nil => exact h
  | cons o t ih => exact ih (execOp o s) (retiredBelow_execOp o s h)

theorem retiredBelow_run (d : Nat) (ops : List Op) :
    retiredBelow (run d ops) :=
  retiredBelow_foldl ops (initialState d) (retiredBelow_initial d)

theorem run_append (d : Nat) (ops extra : List Op) :
    run d (ops ++ extra) =
      extra.foldl (fun s o => execOp o s) (run d ops) := by
  simp [run, List.foldl_append]

/-- C9.  Monotonicity: along any sequence of calls from a fresh
deployment (failed calls revert to the unchanged state), `totalMinted`
and `totalRetired` never decrease, and a slot's `isRetired` flag, once
`true`, stays `true` — it transitions at most once, `false → true`,
never back. -/
theorem counters_and_flags_monotone (d : Nat) (ops extra : List Op) :
    (run d ops).totalMinted ≤ (run d (ops ++ extra)).totalMinted ∧
    (run d ops).totalRetired ≤ (run d (ops ++ extra)).totalRetired ∧
    ∀ i, ((run d ops).creditMetadata i).isRetired = true →
      ((run d (ops ++ extra)).creditMetadata i).isRetired = true := by
  rw [run_append]
  exact ⟨foldl_totalMinted_le extra (run d ops),
    foldl_totalRetired_le extra (run d ops),
    fun i hi => foldl_isRetired_mono extra (run d ops) i
      (retiredBelow_run d ops) hi⟩

/-- Calls used by the monotonicity witness: one mint of 1 unit, one
retirement, then one further mint. -/
def monoWitnessOps : List Op :=
  [Op.mint 0 1 1 "P1" "V1" "M1" "L1" 2023 10,
   Op.retire 1 1 "offset" 11]

def monoWitnessExtra : List Op :=
  [Op.mint 0 2 1 "P2" "V2" "M2" "L2" 2024 12]

theorem counters_and_flags_monotone_witness :
    ((run 0 monoWitnessOps).creditMetadata 0).isRetired = true ∧
    ((run 0 (monoWitnessOps ++ monoWitnessExtra)).creditMetadata
      0).isRetired = true :=
  ⟨by decide,
    (counters_and_flags_monotone 0 monoWitnessOps monoWitnessExtra).2.2
      0 (by decide)⟩

/-! ## Freshness of mint writes -/

/-- Metadata-mapping indices touched by one call: a successful mint
writes its record at `s.totalMinted`; a successful retirement mutates
the slot chosen by the scan; every other call (and every reverted call)
touches none. -/
def touches (s : CarbonState) (o : Op) : List Nat :=
  match applyOp o s with
  | .error _ => []
  | .ok _ =>
    match o with
    | .mint _ _ _ _ _ _ _ _ _ => [s.totalMinted]
    | .retire _ _ _ _ =>
        (findUnretired s.creditMetadata s.totalMinted).toList
    | _ => []

/-- All metadata-mapping indices touched along a sequence of calls. -/
def traceTouches : CarbonState → List Op → List Nat
  | _, [] => []
  | s, o :: t => touches s o ++ traceTouches (execOp o s) t

theorem touches_lt (s : CarbonState) (o : Op) :
    ∀ i ∈ touches s o, i < (execOp o s).totalMinted := by
  intro i hi
  unfold touches at hi
  cases ho : applyOp o s with
  | error e => rw [ho] at hi; simp at hi
  | ok s' =>
    rw [ho] at hi
    rw [execOp_of_ok ho]
    cases o with
    | mint c t a pid vid meth loc vy now =>
      simp at hi
      subst hi
      rw [applyOp] at ho
      rcases mintCarbonCredits_ok_iff.mp ho with ⟨_, _, _, ha, _, _, rfl⟩
      simp only [mintResult]
      omega
    | retire c a reason now =>
      simp only [Option.mem_toList, Option.mem_def] at hi
      rw [applyOp] at ho
      rcases retireCarbonCredits_ok_iff.mp ho with ⟨_, _, _, _, _, rfl⟩
      simp only [retireResult]
      exact findUnretired_lt hi
    | transfer c t a => simp at hi
    | addVerifier c w => simp at hi
    | removeVerifier c w => simp at hi
    | pause c => simp at hi
    | unpause c => simp at hi

theorem traceTouches_lt (ops : List Op) (s : CarbonState) :
    ∀ i ∈ traceTouches s ops,
      i < (ops.foldl (fun s o => execOp o s) s).totalMinted := by
  induction ops generalizing s with
  | nil => intro i hi; simp [traceTouches] at hi
  | cons o t ih =>
    intro i hi
    simp only [traceTouches, List.mem_append] at hi
    simp only [List.foldl_cons]
    rcases hi with hi | hi
    · exact lt_of_lt_of_le (touches_lt s o i hi)
        (foldl_totalMinted_le t (execOp o s))
    · exact ih (execOp o s) i hi

/-- C10.  A successful mint writes its batch record at index
`totalMinted` of the current state, and every metadata index touched
earlier in the run — whether written by a previous mint or mutated by a
previous retirement — is strictly below that index.  Hence mint writes
land on strictly increasing, fresh indices: no batch record is ever
overwritten or created twice. -/
theorem mint_writes_fresh_index (d : Nat) (ops : List Op)
    (caller toAcct amount : Nat) (pid vid meth loc : String)
    (vy now : Nat) (s' : CarbonState)
    (hok : applyOp (Op.mint caller toAcct amount pid vid meth loc vy now)
      (run d ops) = .ok s') :
    s'.creditMetadata (run d ops).totalMinted =
      { projectId := pid
        verificationId := vid
        verificationDate := now
        methodology := meth
        location := loc
        vintageYear := vy
        isRetired := false
        retirementReason := ""
        retirementDate := 0 } ∧
    ∀ i ∈ traceTouches (initialState d) ops,
      i < (run d ops).totalMinted := by
  rw [applyOp] at hok
  rcases mintCarbonCredits_ok_iff.mp hok with ⟨_, _, _, _, _, _, rfl⟩
  constructor
  · simp [mintResult]
  · intro i hi
    exact traceTouches_lt ops (initialState d) i hi

/-- Calls used by the freshness witness: a mint of 2 units and a
retirement, followed by a further successful mint. -/
def freshWitnessOps : List Op :=
  [Op.mint 0 1 2 "P1" "V1" "M1" "L1" 2023 10,
   Op.retire 1 1 "offset" 11]

theorem mint_writes_fresh_index_witness :
    0 ∈ traceTouches (initialState 0) freshWitnessOps ∧
    0 < (run 0 freshWitnessOps).totalMinted :=
  ⟨by decide,
    (mint_writes_fresh_index 0 freshWitnessOps 0 2 3 "P2" "V2" "M2" "L2"
      2024 12
      (mintResult 0 2 3 "P2" "V2" "M2" "L2" 2024 12
        (run 0 freshWitnessOps))
      (by rfl)).2 0 (by decide)⟩

/-! ## Batch id assignment -/

/-- Two consecutive mints (owner as caller), amounts 2 and 3. -/
def twoMintOps : List Op :=
  [Op.mint 0 1 2 "P1" "V1" "M1" "L1" 2023 10,
   Op.mint 0 1 3 "P2" "V2" "M2" "L2" 2024 11]

/-- C2 counterexample.  After one successful mint (amount 2), a second
successful mint stores its record at index 2 — the pre-increment value
of `totalMinted`, which grew by the first mint's *amount* — not at
index 1, the number of prior successful mint calls.  Slot 1 still holds
the zero-initialised default struct. -/
theorem batch_id_not_mint_ordinal :
    applyOp (Op.mint 0 1 3 "P2" "V2" "M2" "L2" 2024 11)
        (run 0 [Op.mint 0 1 2 "P1" "V1" "M1" "L1" 2023 10])
      = .ok (run 0 twoMintOps) ∧
    (run 0 twoMintOps).creditMetadata 1 = CarbonCreditMetadata.default ∧
    ((run 0 twoMintOps).creditMetadata 2).projectId = "P2" :=
  ⟨by rfl, by decide, by decide⟩

/-- C2 amended.  Every successful mint creates exactly one new batch
record, at index equal to the pre-call value of `totalMinted` (the sum
of all previously minted amounts), leaving every other slot unchanged;
`totalMinted` then grows by the positive `amount`.  Ids are therefore
strictly increasing in mint order but are the cumulative minted
amounts, not the sequential values 0, 1, 2, …. -/
theorem mint_creates_one_batch_at_pre_totalMinted
    (caller toAcct amount : Nat) (pid vid meth loc : String)
    (vy now : Nat) (s s' : CarbonState)
    (hok : mintCarbonCredits caller toAcct amount pid vid meth loc vy now
      s = .ok s') :
    s'.creditMetadata s.totalMinted =
      { projectId := pid
        verificationId := vid
        verificationDate := now
        methodology := meth
        location := loc
        vintageYear := vy
        isRetired := false
        retirementReason := ""
        retirementDate := 0 } ∧
    (∀ i, i ≠ s.totalMinted → s'.creditMetadata i = s.creditMetadata i) ∧
    s'.totalMinted = s.totalMinted + amount ∧ amount ≠ 0 := by
  rcases mintCarbonCredits_ok_iff.mp hok with ⟨_, _, _, ha, _, _, rfl⟩
  refine ⟨by simp [mintResult], fun i hi => ?_, by simp [mintResult], ha⟩
  simp [mintResult, if_neg hi]

theorem mint_creates_one_batch_witness :
    ((run 0 twoMintOps).creditMetadata 2).vintageYear = 2024 ∧
    (run 0 twoMintOps).totalMinted = 2 + 3 :=
  ⟨by
    have h := mint_creates_one_batch_at_pre_totalMinted 0 1 3 "P2" "V2"
      "M2" "L2" 2024 11
      (run 0 [Op.mint 0 1 2 "P1" "V1" "M1" "L1" 2023 10])
      (run 0 twoMintOps) (by rfl)
    rw [show (run 0 [Op.mint 0 1 2 "P1" "V1" "M1" "L1" 2023
      10]).totalMinted = 2 by decide] at h
    rw [h.1],
   by
    have h := mint_creates_one_batch_at_pre_totalMinted 0 1 3 "P2" "V2"
      "M2" "L2" 2024 11
      (run 0 [Op.mint 0 1 2 "P1" "V1" "M1" "L1" 2023 10])
      (run 0 twoMintOps) (by rfl)
    rw [h.2.2.1]
    decide⟩

/-! ## Retirement targeting -/

/-- Two mints (amounts 2 and 1, records at indices 0 and 2) and one
retirement (marks slot 0). -/
def preSecondRetire : List Op :=
  [Op.mint 0 1 2 "P1" "V1" "M1" "L1" 2023 10,
   Op.mint 0 1 1 "P2" "V2" "M2" "L2" 2024 11,
   Op.retire 1 1 "r1" 12]

/-- The same calls followed by a second retirement. -/
def postSecondRetire : List Op :=
  preSecondRetire ++ [Op.retire 1 1 "r2" 13]

/-- C3 counterexample.  Before the second retirement the lowest-indexed
*batch record* with `retired == false` is the one at index 2 (project
"P2"); slot 1 was never written by any mint.  The second retirement
succeeds but marks slot 1 — a zero-initialised non-batch slot — and
leaves the batch record at index 2 unretired, contradicting the claim
that a successful retire marks the lowest-indexed unretired batch
record. -/
theorem retire_marks_nonbatch_slot :
    ((run 0 preSecondRetire).creditMetadata 0).isRetired = true ∧
    (run 0 preSecondRetire).creditMetadata 1 =
      CarbonCreditMetadata.default ∧
    ((run 0 preSecondRetire).creditMetadata 2).projectId = "P2" ∧
    ((run 0 preSecondRetire).creditMetadata 2).isRetired = false ∧
    applyOp (Op.retire 1 1 "r2" 13) (run 0 preSecondRetire)
      = .ok (run 0 postSecondRetire) ∧
    ((run 0 postSecondRetire).creditMetadata 1).isRetired = true ∧
    ((run 0 postSecondRetire).creditMetadata 1).projectId = "" ∧
    ((run 0 postSecondRetire).creditMetadata 2).isRetired = false :=
  ⟨by decide, by decide, by decide, by decide, by rfl, by decide,
    by decide, by decide⟩

/-- C3 amended.  A successful retire marks exactly one slot of the
metadata mapping: the lowest index in `[0, totalMinted)` whose
`isRetired` flag is false — counting zero-initialised slots that no
mint ever wrote, not only batch records — stamping `reason` and the
current time on that slot and leaving every other slot unchanged,
regardless of caller and amount.  (When every mint has amount 1 the
marked slot is always the lowest-indexed unretired batch record; with
larger amounts it can be a non-batch slot.) -/
theorem retire_marks_lowest_unretired_slot
    (caller amount : Nat) (reason : String) (now : Nat)
    (s s' : CarbonState) (i : Nat)
    (hok : retireCarbonCredits caller amount reason now s = .ok s')
    (hi : i < s.totalMinted)
    (hflag : (s.creditMetadata i).isRetired = false) :
    ∃ j, findUnretired s.creditMetadata s.totalMinted = some j ∧
      j ≤ i ∧ j < s.totalMinted ∧
      (s.creditMetadata j).isRetired = false ∧
      (∀ k, k < j → (s.creditMetadata k).isRetired = true) ∧
      s'.creditMetadata j =
        { s.creditMetadata j with
          isRetired := true
          retirementReason := reason
          retirementDate := now } ∧
      (∀ k, k ≠ j → s'.creditMetadata k = s.creditMetadata k) := by
  rcases retireCarbonCredits_ok_iff.mp hok with ⟨_, _, _, _, _, rfl⟩
  rcases findUnretired_isSome hi hflag with ⟨j, hj⟩
  refine ⟨j, hj, ?_, findUnretired_lt hj, findUnretired_flag hj,
    findUnretired_min hj, ?_, ?_⟩
  · by_contra hij
    push_neg at hij
    have := findUnretired_min hj i hij
    rw [hflag] at this
    exact Bool.false_ne_true this
  · simp only [retireResult, markRetired_of_found reason now hj]
    simp
  · intro k hk
    simp only [retireResult, markRetired_of_found reason now hj]
    simp [if_neg hk]

theorem retire_marks_lowest_unretired_slot_witness :
    ∃ j, findUnretired (run 0 preSecondRetire).creditMetadata
        (run 0 preSecondRetire).totalMinted = some j ∧
      j ≤ 2 ∧ j < (run 0 preSecondRetire).totalMinted ∧
      ((run 0 preSecondRetire).creditMetadata j).isRetired = false ∧
      (∀ k, k < j →
        ((run 0 preSecondRetire).creditMetadata k).isRetired = true) ∧
      (run 0 postSecondRetire).creditMetadata j =
        { (run 0 preSecondRetire).creditMetadata j with
          isRetired := true
          retirementReason := "r2"
          retirementDate := 13 } ∧
      (∀ k, k ≠ j → (run 0 postSecondRetire).creditMetadata k =
        (run 0 preSecondRetire).creditMetadata k) :=
  retire_marks_lowest_unretired_slot 1 1 "r2" 13
    (run 0 preSecondRetire) (run 0 postSecondRetire) 2 (by rfl)
    (by decide) (by decide)

/-! ## Metadata lookup bounds -/

/-- A single mint call of amount 2: exactly one batch record exists
(at index 0), while `totalMinted = 2`. -/
def oneMintOfTwo : List Op := [Op.mint 0 1 2 "P1" "V1" "M1" "L1" 2023 10]

/-- C4 counterexample.  After one successful mint call the registry
holds exactly one batch record, so by the claim the lookup at id 1
(≥ batch count 1) should fail with not-found.  The code instead
compares the id against `totalMinted` (= 2, the minted amount), so the
lookup at id 1 *succeeds* and returns the zero-initialised default
struct rather than any stored record. -/
theorem metadata_lookup_succeeds_past_batch_count :
    applyOp (Op.mint 0 1 2 "P1" "V1" "M1" "L1" 2023 10) (initialState 0)
      = .ok (run 0 oneMintOfTwo) ∧
    (run 0 oneMintOfTwo).totalMinted = 2 ∧
    getCarbonCreditMetadata 1 (run 0 oneMintOfTwo)
      = .ok CarbonCreditMetadata.default :=
  ⟨by rfl, by decide, by rfl⟩

/-- C4 amended.  `getCarbonCreditMetadata id` fails with not-found iff
`id ≥ totalMinted` (the cumulative minted *amount*, not the number of
batch records); for any `id < totalMinted` it returns the metadata
mapping's slot at `id` — the stored batch record when a mint wrote that
index, and the zero-initialised default struct otherwise. -/
theorem metadata_lookup_bounds (s : CarbonState) (tokenId : Nat) :
    (getCarbonCreditMetadata tokenId s = .error .NotFound ↔
      s.totalMinted ≤ tokenId) ∧
    (tokenId < s.totalMinted →
      getCarbonCreditMetadata tokenId s = .ok (s.creditMetadata tokenId)) := by
  unfold getCarbonCreditMetadata
  split_ifs with h
  · constructor
    · constructor
      · intro he; cases he
      · intro hle; omega
    · intro _; rfl
  · constructor
    · constructor
      · intro _; omega
      · intro _; rfl
    · intro hlt; omega

theorem metadata_lookup_bounds_witness :
    getCarbonCreditMetadata 0 (run 0 oneMintOfTwo)
      = .ok ((run 0 oneMintOfTwo).creditMetadata 0) ∧
    (getCarbonCreditMetadata 5 (run 0 oneMintOfTwo) = .error .NotFound ↔
      (run 0 oneMintOfTwo).totalMinted ≤ 5) :=
  ⟨(metadata_lookup_bounds (run 0 oneMintOfTwo) 0).2 (by decide),
    (metadata_lookup_bounds (run 0 oneMintOfTwo) 5).1⟩

/-! ## Mint authorization -/

/-- C5.  When the other mint preconditions hold (not paused, nonzero
recipient, positive amount, non-empty identifiers), the mint succeeds
iff the caller is the owner or a registered verifier; any other caller
receives `Unauthorized`, and the call leaves the state entirely
unchanged. -/
theorem mint_authorization (s : CarbonState)
    (caller toAcct amount : Nat) (pid vid meth loc : String)
    (vy now : Nat)
    (hp : s.paused = false) (ht : toAcct ≠ 0) (ha : amount ≠ 0)
    (hpid : pid.length ≠ 0) (hvid : vid.length ≠ 0) :
    ((∃ s', mintCarbonCredits caller toAcct amount pid vid meth loc vy
      now s = .ok s') ↔
      (s.verifiers caller = true ∨ caller = s.owner)) ∧
    (¬ (s.verifiers caller = true ∨ caller = s.owner) →
      mintCarbonCredits caller toAcct amount pid vid meth loc vy now s
        = .error .Unauthorized ∧
      execOp (Op.mint caller toAcct amount pid vid meth loc vy now) s
        = s) := by
  constructor
  · constructor
    · rintro ⟨s', hs'⟩
      exact (mintCarbonCredits_ok_iff.mp hs').1
    · intro hauth
      exact ⟨_, mintCarbonCredits_ok_iff.mpr
        ⟨hauth, hp, ht, ha, hpid, hvid, rfl⟩⟩
  · intro hauth
    have herr : mintCarbonCredits caller toAcct amount pid vid meth loc
        vy now s = .error .Unauthorized := by
      unfold mintCarbonCredits
      rw [if_pos hauth]
    have happ : applyOp (Op.mint caller toAcct amount pid vid meth loc
        vy now) s = .error .Unauthorized := by
      rw [applyOp]
      exact herr
    exact ⟨herr, execOp_of_error happ⟩

theorem mint_authorization_witness :
    mintCarbonCredits 1 2 5 "P" "V" "M" "L" 2023 7 (initialState 0)
      = .error .Unauthorized ∧
    (∃ s', mintCarbonCredits 0 2 5 "P" "V" "M" "L" 2023 7
      (initialState 0) = .ok s') :=
  ⟨((mint_authorization (initialState 0) 1 2 5 "P" "V" "M" "L" 2023 7
      (by decide) (by decide) (by decide) (by decide) (by decide)).2
      (by decide)).1,
    (mint_authorization (initialState 0) 0 2 5 "P" "V" "M" "L" 2023 7
      (by decide) (by decide) (by decide) (by decide)
      (by decide)).1.mpr (by decide)⟩

/-! ## Pause gate -/

/-- C6 counterexample.  With the contract paused, a mint attempted by a
caller who is neither owner nor verifier fails with `Unauthorized`, not
`Halted`: the `onlyVerifier` modifier runs before `whenNotPaused`.  So
it is not the case that while halted *every* mint call fails with a
Halted error. -/
theorem paused_mint_unauthorized_not_halted :
    (run 0 [Op.pause 0]).paused = true ∧
    mintCarbonCredits 1 2 5 "P" "V" "M" "L" 2023 7 (run 0 [Op.pause 0])
      = .error .Unauthorized ∧
    ErrKind.Unauthorized ≠ ErrKind.Halted :=
  ⟨by decide, by rfl, by decide⟩

/-- C6 amended.  While the halt flag is set: every retire and every
transfer fails with `Halted`; a mint fails with `Halted` when the
caller is the owner or a verifier and with `Unauthorized` otherwise
(authorization is checked before the pause flag); `addVerifier`,
`removeVerifier` and `unpause` called by the owner (with their own
preconditions met) still succeed; and the read-only queries (balance,
batch metadata) are unaffected by the flag. -/
theorem pause_gate (s : CarbonState) (caller toAcct amount : Nat)
    (pid vid meth loc reason : String) (vy now : Nat)
    (who who2 acct tid : Nat)
    (hpause : s.paused = true) :
    retireCarbonCredits caller amount reason now s = .error .Halted ∧
    transfer caller toAcct amount s = .error .Halted ∧
    ((s.verifiers caller = true ∨ caller = s.owner) →
      mintCarbonCredits caller toAcct amount pid vid meth loc vy now s
        = .error .Halted) ∧
    (¬ (s.verifiers caller = true ∨ caller = s.owner) →
      mintCarbonCredits caller toAcct amount pid vid meth loc vy now s
        = .error .Unauthorized) ∧
    (who ≠ 0 → s.verifiers who = false →
      addVerifier s.owner who s = .ok
        { s with verifiers := fun a => if a = who then true
          else s.verifiers a }) ∧
    (s.verifiers who2 = true →
      removeVerifier s.owner who2 s = .ok
        { s with verifiers := fun a => if a = who2 then false
          else s.verifiers a }) ∧
    unpause s.owner s = .ok { s with paused := false } ∧
    getCarbonCreditMetadata tid s =
      getCarbonCreditMetadata tid { s with paused := false } ∧
    balanceOf acct s = balanceOf acct { s with paused := false } := by
  refine ⟨?_, ?_, ?_, ?_, ?_, ?_, ?_, ?_, ?_⟩
  · unfold retireCarbonCredits
    rw [if_pos hpause]
  · unfold transfer
    rw [if_pos hpause]
  · intro hauth
    unfold mintCarbonCredits
    rw [if_neg (not_not_intro hauth), if_pos hpause]
  · intro hauth
    unfold mintCarbonCredits
    rw [if_pos hauth]
  · intro hw0 hwv
    exact addVerifier_ok_iff.mpr ⟨rfl, hw0, hwv, rfl⟩
  · intro hwv
    exact removeVerifier_ok_iff.mpr ⟨rfl, hwv, rfl⟩
  · exact unpause_ok_iff.mpr ⟨rfl, hpause, rfl⟩
  · unfold getCarbonCreditMetadata
    rfl
  · unfold balanceOf
    rfl

theorem pause_gate_witness :
    retireCarbonCredits 1 1 "r" 5 (run 0 [Op.pause 0])
      = .error .Halted ∧
    transfer 1 2 1 (run 0 [Op.pause 0]) = .error .Halted ∧
    mintCarbonCredits 0 2 3 "P" "V" "M" "L" 2023 5 (run 0 [Op.pause 0])
      = .error .Halted ∧
    unpause (run 0 [Op.pause 0]).owner (run 0 [Op.pause 0])
      = .ok { run 0 [Op.pause 0] with paused := false } := by
  have h := pause_gate (run 0 [Op.pause 0]) 0 2 3 "P" "V" "M" "L" "r"
    2023 5 4 4 1 0 (by decide)
  have h2 := pause_gate (run 0 [Op.pause 0]) 1 2 1 "P" "V" "M" "L" "r"
    2023 5 4 4 1 0 (by decide)
  exact ⟨h2.1, h2.2.1, h.2.2.1 (by decide), h.2.2.2.2.2.2.1⟩

/-! ## Retire failure atomicity -/

/-- C7.  A retire call with insufficient balance, zero amount, or an
empty reason always fails (whatever the rest of the state, including
the pause flag), and the failed call changes no component of the
state. -/
theorem retire_failure_atomic (s : CarbonState) (caller amount : Nat)
    (reason : String) (now : Nat)
    (h : getBal s.balances caller < amount ∨ amount = 0 ∨
      reason.length = 0) :
    (∃ e, retireCarbonCredits caller amount reason now s = .error e) ∧
    execOp (Op.retire caller amount reason now) s = s := by
  have herr : ∃ e, retireCarbonCredits caller amount reason now s
      = .error e := by
    unfold retireCarbonCredits
    split_ifs with h1 h2 h3 h4 h5
    · exact ⟨_, rfl⟩
    · exact ⟨_, rfl⟩
    · exact ⟨_, rfl⟩
    · exact ⟨_, rfl⟩
    · exact ⟨_, rfl⟩
    · exfalso
      rcases h with h | h | h
      · exact h3 h
      · exact h2 h
      · exact h4 h
  rcases herr with ⟨e, he⟩
  have happ : applyOp (Op.retire caller amount reason now) s
      = .error e := by
    rw [applyOp]
    exact he
  exact ⟨⟨e, he⟩, execOp_of_error happ⟩

theorem retire_failure_atomic_witness :
    (∃ e, retireCarbonCredits 1 5 "r" 2 (initialState 0) = .error e) ∧
    execOp (Op.retire 1 5 "r" 2) (initialState 0) = initialState 0 :=
  retire_failure_atomic (initialState 0) 1 5 "r" 2
    (Or.inl (by decide))

/-! ## Role management misuse -/

theorem verifiers_zero_execOp (o : Op) (s : CarbonState)
    (h : s.verifiers 0 = false) : (execOp o s).verifiers 0 = false := by
  cases ho : applyOp o s with
  | error e => rw [execOp_of_error ho]; exact h
  | ok s' =>
    rw [execOp_of_ok ho]
    cases o with
    | mint c t a pid vid meth loc vy now =>
      rw [applyOp] at ho
      rcases mintCarbonCredits_ok_iff.mp ho with ⟨_, _, _, _, _, _, rfl⟩
      exact h
    | retire c a reason now =>
      rw [applyOp] at ho
      rcases retireCarbonCredits_ok_iff.mp ho with ⟨_, _, _, _, _, rfl⟩
      exact h
    | transfer c t a =>
      rw [applyOp] at ho
      rcases transfer_ok_iff.mp ho with ⟨_, _, _, _, rfl⟩
      exact h
    | addVerifier c w =>
      rw [applyOp] at ho
      rcases addVerifier_ok_iff.mp ho with ⟨_, hw0, _, rfl⟩
      simp only
      rw [if_neg (by omega : ¬ (0 : Nat) = w)]
      exact h
    | removeVerifier c w =>
      rw [applyOp] at ho
      rcases removeVerifier_ok_iff.mp ho with ⟨_, _, rfl⟩
      simp only
      split_ifs <;> simp [h]
    | pause c =>
      rw [applyOp] at ho
      rcases pause_ok_iff.mp ho with ⟨_, _, rfl⟩
      exact h
    | unpause c =>
      rw [applyOp] at ho
      rcases unpause_ok_iff.mp ho with ⟨_, _, rfl⟩
      exact h

theorem verifiers_zero_run (d : Nat) (ops : List Op) :
    (run d ops).verifiers 0 = false := by
  unfold run
  have hinit : (initialState d).verifiers 0 = false := rfl
  generalize initialState d = s0 at hinit ⊢
  induction ops generalizing s0 with
  | nil => exact hinit
  | cons o t ih =>
    exact ih (execOp o s0) (verifiers_zero_execOp o s0 hinit)

/-- C8.  In every reachable state, adding an address that is already a
verifier fails with `Already a verifier` and removing an address that
is not a verifier fails with `Not a verifier`; both failures leave the
state (in particular the role set) unchanged. -/
theorem role_misuse_is_error (d : Nat) (ops : List Op) (who : Nat) :
    ((run d ops).verifiers who = true →
      addVerifier (run d ops).owner who (run d ops)
        = .error .AlreadyVerifier ∧
      execOp (Op.addVerifier (run d ops).owner who) (run d ops)
        = run d ops) ∧
    ((run d ops).verifiers who = false →
      removeVerifier (run d ops).owner who (run d ops)
        = .error .NotVerifier ∧
      execOp (Op.removeVerifier (run d ops).owner who) (run d ops)
        = run d ops) := by
  constructor
  · intro hv
    have hw0 : who ≠ 0 := by
      intro h0
      rw [h0, verifiers_zero_run d ops] at hv
      exact Bool.false_ne_true hv
    have herr : addVerifier (run d ops).owner who (run d ops)
        = .error .AlreadyVerifier := by
      unfold addVerifier
      rw [if_neg (not_not_intro rfl), if_neg hw0, if_pos hv]
    have happ : applyOp (Op.addVerifier (run d ops).owner who)
        (run d ops) = .error .AlreadyVerifier := by
      rw [applyOp]
      exact herr
    exact ⟨herr, execOp_of_error happ⟩
  · intro hv
    have herr : removeVerifier (run d ops).owner who (run d ops)
        = .error .NotVerifier := by
      unfold removeVerifier
      rw [if_neg (not_not_intro rfl), if_pos (by simp [hv])]
    have happ : applyOp (Op.removeVerifier (run d ops).owner who)
        (run d ops) = .error .NotVerifier := by
      rw [applyOp]
      exact herr
    exact ⟨herr, execOp_of_error happ⟩

theorem role_misuse_is_error_witness :
    addVerifier (run 0 [Op.addVerifier 0 1]).owner 1
      (run 0 [Op.addVerifier 0 1]) = .error .AlreadyVerifier ∧
    removeVerifier (run 0 [Op.addVerifier 0 1]).owner 2
      (run 0 [Op.addVerifier 0 1]) = .error .NotVerifier :=
  ⟨((role_misuse_is_error 0 [Op.addVerifier 0 1] 1).1 (by decide)).1,
    ((role_misuse_is_error 0 [Op.addVerifier 0 1] 2).2 (by decide)).1⟩
